import Mathlib

/-!
Shallow embedding of the ETL pipeline in `models.py`: parameter validation
(`check_input_params`), the currency-rate adapter (`CurrencyRate`), the
weather adapter (`AvgTemp`), and the balance-of-payments adapter (`Balance`).

Tabular data is modelled as a frame: a list of column labels plus rows of
cells, where a cell is null (NaN), a string, or a rational number (pandas
floats are modelled as rationals).  External I/O (HTTP fetches, spreadsheet
parsing, the ISO-week calendar) is abstracted as function parameters; the
pure reshaping logic is translated line by line from the source.
-/

/-- A single cell of a pandas DataFrame: missing (NaN), text, or numeric. -/
inductive Cell where
  | null : Cell
  | str : String → Cell
  | num : ℚ → Cell
deriving DecidableEq, Repr

/-- Whether a cell is missing, mirroring pandas `isna`. -/
def Cell.isna : Cell → Bool
  | Cell.null => true
  | _ => false

/-- A pandas DataFrame with dynamic columns: column labels plus rows of cells
(each row aligned positionally with the column list). -/
structure Frame where
  cols : List String
  rows : List (List Cell)
deriving DecidableEq, Repr

/-- Whether every cell of a row is missing: `row.isna().all()`. -/
def rowAllNull (r : List Cell) : Bool := r.all Cell.isna

/-- Restrict one row to the cells whose column label is in `keep`, mirroring
`frame.loc[:, frame.columns.isin(keep)]` at row level. -/
def filterRowKeep (keep cols : List String) (r : List Cell) : List Cell :=
  ((cols.zip r).filter (fun p => keep.contains p.1)).map Prod.snd

/-- Restrict one row to the cells whose column label is not `Parameter`,
mirroring selection by `frame.columns.drop('Parameter')`. -/
def dropParam (cols : List String) (r : List Cell) : List Cell :=
  ((cols.zip r).filter (fun p => !(p.1 == "Parameter"))).map Prod.snd

/-- The cell of a row under a given column label (first occurrence). -/
def cellAt (cols : List String) (r : List Cell) (c : String) : Cell :=
  ((cols.zip r).lookup c).getD Cell.null

/-- Column restriction `frame.loc[:, frame.columns.isin(keep)]`: keeps the
columns whose label is in `keep`, in their original order. -/
def Frame.selectCols (f : Frame) (keep : List String) : Frame :=
  ⟨f.cols.filter (fun c => keep.contains c), f.rows.map (filterRowKeep keep f.cols)⟩

/-- Union of column lists in order of first appearance, as `pd.concat` forms
the column set of frames with differing columns. -/
def unionCols (l : List (List String)) : List String :=
  l.foldl (fun acc cs => acc ++ cs.filter (fun c => !(acc.contains c))) []

/-- Re-align a row of a frame with columns `cols` to a target column list,
filling absent columns with NaN, as `pd.concat` does. -/
def reindexRow (cols : List String) (r : List Cell) (target : List String) : List Cell :=
  target.map (fun c => ((cols.zip r).lookup c).getD Cell.null)

/-- Row-wise concatenation `pd.concat(frames)`: the columns are the union of
all frames' columns and every row is re-aligned to that union. -/
def concatFrames (fs : List Frame) : Frame :=
  ⟨unionCols (fs.map Frame.cols),
   fs.flatMap (fun f => f.rows.map (fun r => reindexRow f.cols r (unionCols (fs.map Frame.cols))))⟩

/-- Insert into a list sorted by the boolean relation `le`. -/
def insertLe (le : α → α → Bool) (a : α) : List α → List α
  | [] => [a]
  | b :: l => if le a b then a :: b :: l else b :: insertLe le a l

/-- Insertion sort by the boolean relation `le`; models the sorted group
order produced by pandas `groupby(..., sort=True)`. -/
def sortLe (le : α → α → Bool) (l : List α) : List α := l.foldr (insertLe le) []

/-- Effectful map over `Option`, failing if any element fails. -/
def mapOpt (f : α → Option β) : List α → Option (List β)
  | [] => some []
  | a :: l =>
    match f a, mapOpt f l with
    | some b, some bs => some (b :: bs)
    | _, _ => none

/-- Effectful map over `Except`, surfacing the first error, as a Python
`for` loop raises the first exception. -/
def mapExc (f : α → Except ε β) : List α → Except ε (List β)
  | [] => .ok []
  | a :: l =>
    match f a, mapExc f l with
    | .ok b, .ok bs => .ok (b :: bs)
    | .error e, _ => .error e
    | _, .error e => .error e

/-- Minimum of a list (pandas `min` aggregation); the default is only used
on the empty list, which aggregation never produces. -/
def aggMin [LinearOrder α] (d : α) : List α → α
  | [] => d
  | x :: xs => xs.foldl min x

/-- Maximum of a list (pandas `max` aggregation). -/
def aggMax [LinearOrder α] (d : α) : List α → α
  | [] => d
  | x :: xs => xs.foldl max x

/-- Mean of a list of rationals (pandas `mean` aggregation). -/
def qMean (l : List ℚ) : ℚ := l.sum / l.length

/-- Split a character list on the dash character, modelling the field
structure `strptime` expects of the format `%Y-%m-%d`. -/
def splitDash : List Char → List (List Char)
  | [] => [[]]
  | c :: cs =>
    if c = '-' then [] :: splitDash cs
    else
      match splitDash cs with
      | [] => [[c]]
      | g :: gs => (c :: g) :: gs

/-- Parse a non-empty list of decimal digits as a natural number; `none` on
the empty list or any non-digit, as `strptime` rejects such fields. -/
def digitsToNat : List Char → Option Nat
  | [] => none
  | l =>
    if l.all (fun c => 48 ≤ c.toNat && c.toNat ≤ 57) then
      some (l.foldl (fun acc c => 10 * acc + (c.toNat - 48)) 0)
    else none

/-- A parsed calendar date (year, month, day). -/
structure PDate where
  y : Nat
  m : Nat
  d : Nat
deriving DecidableEq, Repr

/-- Days in a month, with the Gregorian leap-year rule, as `strptime`
validates the day field. -/
def daysInMonth (y m : Nat) : Nat :=
  if m == 2 then (if y % 4 == 0 && (y % 100 != 0 || y % 400 == 0) then 29 else 28)
  else if m == 4 || m == 6 || m == 9 || m == 11 then 30
  else 31

/-- Model of `datetime.strptime(s, '%Y-%m-%d')`: three dash-separated digit
fields forming a valid calendar date, otherwise failure. -/
def parseDate (s : String) : Option PDate :=
  match splitDash s.toList with
  | [ys, ms, ds] =>
    match digitsToNat ys, digitsToNat ms, digitsToNat ds with
    | some y, some m, some d =>
      if 1 ≤ m && m ≤ 12 && 1 ≤ d && d ≤ daysInMonth y m then some ⟨y, m, d⟩ else none
    | _, _, _ => none
  | _ => none

/-- Strict ordering of parsed dates, as `datetime` comparison orders by
year, then month, then day. -/
def dateLtB (a b : PDate) : Bool :=
  a.y < b.y || (a.y == b.y && (a.m < b.m || (a.m == b.m && a.d < b.d)))

/-- Model of `re.search(r'\.csv$', path) is not None`: the path ends with
the four characters of the csv extension. -/
def endsWithCsv (s : String) : Bool :=
  decide (4 ≤ s.toList.length) &&
    s.toList.drop (s.toList.length - 4) == ['.', 'c', 's', 'v']

/-- Model of the module-level `check_input_params`: parse both dates, check
the range, check the output path ends in .csv.  The `by_day` flag is typed
`Bool`, so the `isinstance` check always passes.  Errors are the raised
exception messages. -/
def check_input_params (start_date end_date loading_path : String) (by_day : Bool) :
    Except String Unit :=
  match parseDate start_date, parseDate end_date with
  | some s, some e =>
    if dateLtB e s then .error "start_date must be <= end_date"
    else if (endsWithCsv loading_path) = false then
      .error "Parameter loading_path must end with .csv (Example: your_path.csv)"
    else
      match by_day with
      | _ => .ok ()
  | _, _ => .error "Parameter start_date, end_date must be an ISO 8601 date (YYYY-MM-DD)"

/-- One raw daily currency row as produced by `CurrencyRate.extract` after
stacking: date, ticker symbol and the OHLC quotes.  The `Adj Close` and
`Volume` columns, dropped on the first line of `transform`, are tracked in
the frame's column list. -/
structure CRow where
  Date : Nat
  Symbol : String
  Open : ℚ
  High : ℚ
  Low : ℚ
  Close : ℚ
deriving DecidableEq, Repr

/-- A currency frame: column labels plus typed daily rows. -/
structure CFrame where
  cols : List String
  rows : List CRow
deriving DecidableEq, Repr

/-- One weekly aggregated currency row, as produced by the
`groupby(['Symbol', 'Week'])` aggregation. -/
structure WRow where
  Symbol : String
  Start_Week : Nat
  End_Week : Nat
  Open : ℚ
  Low : ℚ
  High : ℚ
  Close : ℚ
deriving DecidableEq, Repr

/-- A weekly currency frame: column labels plus aggregated rows. -/
structure WFrame where
  cols : List String
  rows : List WRow
deriving DecidableEq, Repr

/-- Result of `CurrencyRate.transform`: a daily frame when `by_day`, else a
weekly aggregated frame. -/
inductive CurOut where
  | daily : CFrame → CurOut
  | weekly : WFrame → CurOut
deriving DecidableEq, Repr

/-- Model of `.str.replace('=X', '')`: delete every occurrence of the
two-character ticker suffix, scanning left to right. -/
def stripEqX : List Char → List Char
  | [] => []
  | '=' :: 'X' :: rest => stripEqX rest
  | c :: rest => c :: stripEqX rest

/-- The symbol renaming `'USD/' + symbol.replace('=X', '')`. -/
def curRename (s : String) : String := "USD/" ++ (⟨stripEqX s.toList⟩ : String)

/-- Grouping key of the weekly currency aggregation: symbol and ISO week
number of the date. -/
def curKey (iw : Nat → Nat) (r : CRow) : String × Nat := (r.Symbol, iw r.Date)

/-- Sorted-group order on (symbol, week) keys, as `groupby` sorts keys. -/
def curKeyLe (a b : String × Nat) : Bool :=
  decide (a.1 < b.1) || (a.1 == b.1 && decide (a.2 ≤ b.2))

/-- The weekly aggregation of `CurrencyRate.transform`: group daily rows by
(symbol, ISO week), then take min date, max date, mean open, min low, max
high and mean close per group. -/
def curWeekly (iw : Nat → Nat) (rows : List CRow) : List WRow :=
  (sortLe curKeyLe ((rows.map (curKey iw)).dedup)).map (fun k =>
    ⟨k.1,
     aggMin 0 ((rows.filter (fun r => curKey iw r == k)).map CRow.Date),
     aggMax 0 ((rows.filter (fun r => curKey iw r == k)).map CRow.Date),
     qMean ((rows.filter (fun r => curKey iw r == k)).map CRow.Open),
     aggMin 0 ((rows.filter (fun r => curKey iw r == k)).map CRow.Low),
     aggMax 0 ((rows.filter (fun r => curKey iw r == k)).map CRow.High),
     qMean ((rows.filter (fun r => curKey iw r == k)).map CRow.Close)⟩)

/-- Model of `CurrencyRate.transform`.  Drops the `Adj Close` and `Volume`
columns (a `KeyError` if absent, as `DataFrame.drop` raises); on an empty
frame returns it directly when daily, else the fixed empty weekly schema;
otherwise renames symbols to `USD/<CODE>` and, when weekly, aggregates by
(symbol, ISO week number `iw`). -/
def CurrencyRate.transform (by_day : Bool) (iw : Nat → Nat) (frame : CFrame) :
    Except String CurOut :=
  if (frame.cols.contains "Adj Close" && frame.cols.contains "Volume") = false then
    .error "KeyError: Adj Close, Volume"
  else
    if frame.rows.length == 0 then
      if by_day then
        .ok (.daily ⟨frame.cols.filter (fun c => !(c == "Adj Close") && !(c == "Volume")), []⟩)
      else
        .ok (.weekly ⟨["Symbol", "Start Week", "End Week", "Open", "Low", "High", "Close"], []⟩)
    else
      if by_day then
        .ok (.daily ⟨frame.cols.filter (fun c => !(c == "Adj Close") && !(c == "Volume")),
          frame.rows.map (fun r => { r with Symbol := curRename r.Symbol })⟩)
      else
        .ok (.weekly ⟨["Symbol", "Start_Week", "End_Week", "Open", "Low", "High", "Close"],
          curWeekly iw (frame.rows.map
            (fun r => { r with Symbol := curRename r.Symbol }))⟩)

/-- Title-case one character stream as Python `str.title()` does for ASCII:
a letter is uppercased after a non-letter and lowercased after a letter. -/
def titleAux : Bool → List Char → List Char
  | _, [] => []
  | prev, c :: cs =>
    (if c.isAlpha then (if prev then c.toLower else c.toUpper) else c) :: titleAux c.isAlpha cs

/-- Python `str.title()` for ASCII strings, used by
`frame.columns.str.title()`. -/
def strTitle (s : String) : String := ⟨titleAux false s.toList⟩

/-- One raw weather row as produced by `AvgTemp.extract`: station code
(already mapped to an airport code), date, station name, temperature in
Fahrenheit. -/
structure TRow where
  Station : String
  Date : Nat
  Name : String
  Temp : ℚ
deriving DecidableEq, Repr

/-- A weather frame: column labels plus typed daily rows. -/
structure WeFrame where
  cols : List String
  rows : List TRow
deriving DecidableEq, Repr

/-- One weekly aggregated weather row from
`groupby(['Station', 'Name', 'Week'])`. -/
structure TAggRow where
  Station : String
  Name : String
  Start_Week : Nat
  End_Week : Nat
  Temp : ℚ
deriving DecidableEq, Repr

/-- A weekly weather frame: column labels plus aggregated rows. -/
structure TAggFrame where
  cols : List String
  rows : List TAggRow
deriving DecidableEq, Repr

/-- Result of `AvgTemp.transform`: daily frame or weekly aggregated frame. -/
inductive TempOut where
  | daily : WeFrame → TempOut
  | weekly : TAggFrame → TempOut
deriving DecidableEq, Repr

/-- Grouping key of the weekly weather aggregation. -/
def tKey (iw : Nat → Nat) (r : TRow) : String × String × Nat := (r.Station, r.Name, iw r.Date)

/-- Sorted-group order on (station, name, week) keys. -/
def tKeyLe (a b : String × String × Nat) : Bool :=
  decide (a.1 < b.1) ||
    (a.1 == b.1 && (decide (a.2.1 < b.2.1) || (a.2.1 == b.2.1 && decide (a.2.2 ≤ b.2.2))))

/-- The weekly aggregation of `AvgTemp.transform`: group by (station, name,
ISO week), take min date, max date and mean temperature per group. -/
def tempWeekly (iw : Nat → Nat) (rows : List TRow) : List TAggRow :=
  (sortLe tKeyLe ((rows.map (tKey iw)).dedup)).map (fun k =>
    ⟨k.1, k.2.1,
     aggMin 0 ((rows.filter (fun r => tKey iw r == k)).map TRow.Date),
     aggMax 0 ((rows.filter (fun r => tKey iw r == k)).map TRow.Date),
     qMean ((rows.filter (fun r => tKey iw r == k)).map TRow.Temp)⟩)

/-- Model of `AvgTemp.transform`.  Title-cases the column labels; on an
empty frame returns it directly when daily, else the fixed empty weekly
schema; otherwise converts the temperature from Fahrenheit to Celsius and,
when weekly, aggregates by (station, name, ISO week number `iw`).  Column
accesses on a non-empty frame raise `KeyError` when the label is absent. -/
def AvgTemp.transform (by_day : Bool) (iw : Nat → Nat) (frame : WeFrame) :
    Except String TempOut :=
  if frame.rows.length == 0 then
    if by_day then .ok (.daily ⟨frame.cols.map strTitle, []⟩)
    else .ok (.weekly ⟨["Station", "Name", "Start_Week", "End_Week", "Temp"], []⟩)
  else
    if ((frame.cols.map strTitle).contains "Temp") = false then .error "KeyError: Temp"
    else
      if by_day then
        .ok (.daily ⟨frame.cols.map strTitle,
          frame.rows.map (fun r => { r with Temp := (r.Temp - 32) * 5 / 9 })⟩)
      else
        if ((frame.cols.map strTitle).contains "Date" &&
            (frame.cols.map strTitle).contains "Station" &&
            (frame.cols.map strTitle).contains "Name") = false then
          .error "KeyError: groupby columns"
        else
          .ok (.weekly ⟨["Station", "Name", "Start_Week", "End_Week", "Temp"],
            tempWeekly iw (frame.rows.map (fun r => { r with Temp := (r.Temp - 32) * 5 / 9 }))⟩)

/-- The canonical empty schema `empty_frame` built at the top of
`Balance.transform`. -/
def Balance.emptyFrame : Frame :=
  ⟨["Parameter", "Amount ($M)", "Start_Quarter", "End_Quarter"], []⟩

/-- The quarter-label mapping built per year in `Balance.transform`: the
four Cyrillic quarter headers of the year mapped to ordinals 1 to 4. -/
def Balance.quarterMapping (year : String) : List (String × Nat) :=
  [("I квартал " ++ year ++ " г.", 1),
   ("II квартал " ++ year ++ " г.", 2),
   ("III квартал " ++ year ++ " г.", 3),
   ("IV квартал " ++ year ++ " г.", 4)]

/-- The column labels kept by the `isin` restriction: `Parameter` plus the
year's quarter labels. -/
def Balance.keepCols (year : String) : List String :=
  "Parameter" :: (Balance.quarterMapping year).map Prod.fst

/-- Metadata truncation of `Balance.transform`: if any row of the restricted
frame has every cell null, cut the rows at the first such row
(`frame.iloc[:mask.argmax(), :]`); otherwise keep the frame whole. -/
def Balance.truncAtBlank (f1 : Frame) : Frame :=
  if (f1.rows.map rowAllNull).any (fun b => b) then
    ⟨f1.cols, f1.rows.take ((f1.rows.map rowAllNull).findIdx (fun b => b))⟩
  else f1

/-- Steps of `Balance.transform` after truncation: drop the rows whose
quarter cells are all null, melt to long format one (Parameter, quarter
column) pair at a time, and replace each quarter label by its ordinal.  A
missing `Parameter` column raises `KeyError` at
`frame.columns.drop('Parameter')`; an unmapped surviving quarter label
raises at `mapping[x]` (the spec's `UnmappedQuarterColumn`). -/
def Balance.meltYear (year : String) (f2 : Frame) : Except String Frame :=
  if (f2.cols.contains "Parameter") = false then .error "KeyError: Parameter"
  else
    match mapOpt
        (fun t => ((Balance.quarterMapping year).lookup t.2.1).map
          (fun (i : Nat) => [t.1, Cell.num (i : ℚ), t.2.2]))
        ((f2.cols.filter (fun c => !(c == "Parameter"))).flatMap (fun c =>
          ((f2.rows.filter (fun r => !(rowAllNull (dropParam f2.cols r)))).map (fun r =>
            (cellAt f2.cols r "Parameter", c, cellAt f2.cols r c))))) with
    | none => .error "UnmappedQuarterColumn"
    | some rows => .ok ⟨["Parameter", "Quarter", "Amount ($M)"], rows⟩

/-- The per-year body of the loop in `Balance.transform`, producing the
value stored back into `frames[year]`: a zero-row frame is left unchanged
(`continue`); a frame with fewer than two surviving columns contributes the
canonical empty frame; otherwise the truncated restriction is melted. -/
def Balance.transformYearStore (year : String) (frame : Frame) : Except String Frame :=
  if frame.rows.length == 0 then .ok frame
  else
    if (Frame.selectCols frame (Balance.keepCols year)).cols.length < 2 then
      .ok Balance.emptyFrame
    else
      Balance.meltYear year (Balance.truncAtBlank (Frame.selectCols frame (Balance.keepCols year)))

/-- Model of `Balance.transform` together with its in-place mutation of the
input dict: returns the dict as it stands after the loop (each entry
possibly overwritten by `frames[year] = frame`) and the concatenation of
its values.  An empty dict short-circuits to the canonical empty frame. -/
def Balance.transformState (frames : List (String × Frame)) :
    Except String (List (String × Frame) × Frame) :=
  if frames.length == 0 then .ok (frames, Balance.emptyFrame)
  else
    match mapExc (fun p => (Balance.transformYearStore p.1 p.2).map (fun f => (p.1, f))) frames with
    | .error e => .error e
    | .ok updated => .ok (updated, concatFrames (updated.map Prod.snd))

/-- The return value of `Balance.transform`. -/
def Balance.transform (frames : List (String × Frame)) : Except String Frame :=
  (Balance.transformState frames).map (fun p => p.2)

/-- Filename resolution in `Balance.extract`: the combined file for 1992
and 1993, otherwise the file named by the last two digits of the year. -/
def Balance.resolveFilename (year : Int) : String :=
  if year = 1992 ∨ year = 1993 then "57-bop_92-93.xlsx"
  else
    "57-bop_" ++ (toString year).drop ((toString year).length - 2) ++ ".xlsx"

/-- The year loop of `Balance.extract` over the filenames scraped from the
archive index: each year of `[start_year, end_year]` whose resolved
filename is listed contributes the parsed sheet (`fetch year` models
`pd.read_excel` plus the `Parameter` rename); other years are skipped
silently.  The dict is keyed by `str(year)`. -/
def Balance.extractFrames (startYear endYear : Int) (filenames : List String)
    (fetch : Int → Frame) : List (String × Frame) :=
  ((List.range (endYear + 1 - startYear).toNat).map (fun i => startYear + i)).filterMap
    (fun year =>
      if filenames.contains (Balance.resolveFilename year) then
        some (toString year, fetch year)
      else none)

/-- Membership in an insertion step of the sort. -/
lemma mem_insertLe (le : α → α → Bool) (a x : α) (l : List α) :
    x ∈ insertLe le a l ↔ x = a ∨ x ∈ l := by
  induction l with
  | nil => simp [insertLe]
  | cons b t ih =>
    simp only [insertLe]
    by_cases h : le a b = true
    · simp [h]
    · rw [if_neg h]
      simp only [List.mem_cons, ih]
      tauto

/-- Membership is preserved by the insertion sort. -/
lemma mem_sortLe (le : α → α → Bool) (x : α) (l : List α) :
    x ∈ sortLe le l ↔ x ∈ l := by
  induction l with
  | nil => simp [sortLe]
  | cons b t ih =>
    simp only [sortLe, List.foldr_cons, mem_insertLe]
    simp only [sortLe] at ih
    simp [ih]

/-- Insertion grows the length by one. -/
lemma length_insertLe (le : α → α → Bool) (a : α) (l : List α) :
    (insertLe le a l).length = l.length + 1 := by
  induction l with
  | nil => rfl
  | cons b t ih =>
    by_cases h : le a b = true
    · simp [insertLe, h]
    · simp [insertLe, h, ih]

/-- The insertion sort preserves the length. -/
lemma length_sortLe (le : α → α → Bool) (l : List α) :
    (sortLe le l).length = l.length := by
  induction l with
  | nil => rfl
  | cons b t ih => simp [sortLe, length_insertLe, List.foldr_cons] at ih ⊢; omega

/-- A fold by `min` is at most its initial accumulator. -/
lemma foldl_min_le_init [LinearOrder α] (l : List α) (a : α) : l.foldl min a ≤ a := by
  induction l generalizing a with
  | nil => exact le_refl a
  | cons x t ih => exact le_trans (ih (min a x)) (min_le_left a x)

/-- A fold by `min` is at most every member of the list. -/
lemma foldl_min_le_mem [LinearOrder α] (l : List α) : ∀ a x : α, x ∈ l → l.foldl min a ≤ x := by
  induction l with
  | nil => intro a x hx; cases hx
  | cons b t ih =>
    intro a x hx
    rcases List.mem_cons.mp hx with h | h
    · subst h
      exact le_trans (foldl_min_le_init t (min a x)) (min_le_right a x)
    · exact ih (min a b) x h

/-- A fold by `max` is at least its initial accumulator. -/
lemma le_foldl_max_init [LinearOrder α] (l : List α) (a : α) : a ≤ l.foldl max a := by
  induction l generalizing a with
  | nil => exact le_refl a
  | cons x t ih => exact le_trans (le_max_left a x) (ih (max a x))

/-- A fold by `max` is at least every member of the list. -/
lemma le_foldl_max_mem [LinearOrder α] (l : List α) : ∀ a x : α, x ∈ l → x ≤ l.foldl max a := by
  induction l with
  | nil => intro a x hx; cases hx
  | cons b t ih =>
    intro a x hx
    rcases List.mem_cons.mp hx with h | h
    · subst h
      exact le_trans (le_max_right a x) (le_foldl_max_init t (max a x))
    · exact ih (max a b) x h

/-- The aggregated minimum of a non-empty list bounds every member. -/
lemma aggMin_le [LinearOrder α] (d : α) (l : List α) (x : α) (hx : x ∈ l) :
    aggMin d l ≤ x := by
  cases l with
  | nil => cases hx
  | cons b t =>
    rcases List.mem_cons.mp hx with h | h
    · subst h; exact foldl_min_le_init t x
    · exact foldl_min_le_mem t b x h

/-- The aggregated maximum of a non-empty list dominates every member. -/
lemma le_aggMax [LinearOrder α] (d : α) (l : List α) (x : α) (hx : x ∈ l) :
    x ≤ aggMax d l := by
  cases l with
  | nil => cases hx
  | cons b t =>
    rcases List.mem_cons.mp hx with h | h
    · subst h; exact le_foldl_max_init t x
    · exact le_foldl_max_mem t b x h

/-- A fold by `min` is the accumulator or a member of the list. -/
lemma foldl_min_mem [LinearOrder α] (l : List α) :
    ∀ a : α, l.foldl min a = a ∨ l.foldl min a ∈ l := by
  induction l with
  | nil => intro a; exact Or.inl rfl
  | cons b t ih =>
    intro a
    rcases ih (min a b) with h | h
    · rcases min_choice a b with hm | hm
      · left; rw [List.foldl_cons, h, hm]
      · right; rw [List.foldl_cons, h, hm]; exact List.mem_cons_self b t
    · right; exact List.mem_cons_of_mem b h

/-- A fold by `max` is the accumulator or a member of the list. -/
lemma foldl_max_mem [LinearOrder α] (l : List α) :
    ∀ a : α, l.foldl max a = a ∨ l.foldl max a ∈ l := by
  induction l with
  | nil => intro a; exact Or.inl rfl
  | cons b t ih =>
    intro a
    rcases ih (max a b) with h | h
    · rcases max_choice a b with hm | hm
      · left; rw [List.foldl_cons, h, hm]
      · right; rw [List.foldl_cons, h, hm]; exact List.mem_cons_self b t
    · right; exact List.mem_cons_of_mem b h

/-- The aggregated minimum of a non-empty list is one of its members. -/
lemma aggMin_mem [LinearOrder α] (d : α) (l : List α) (hl : l ≠ []) : aggMin d l ∈ l := by
  cases l with
  | nil => exact absurd rfl hl
  | cons b t =>
    simp only [aggMin]
    rcases foldl_min_mem t b with h | h
    · rw [h]; exact List.mem_cons_self b t
    · exact List.mem_cons_of_mem b h

/-- The aggregated maximum of a non-empty list is one of its members. -/
lemma aggMax_mem [LinearOrder α] (d : α) (l : List α) (hl : l ≠ []) : aggMax d l ∈ l := by
  cases l with
  | nil => exact absurd rfl hl
  | cons b t =>
    simp only [aggMax]
    rcases foldl_max_mem t b with h | h
    · rw [h]; exact List.mem_cons_self b t
    · exact List.mem_cons_of_mem b h

/-- A common lower bound of a non-empty list bounds its mean. -/
lemma le_qMean (l : List ℚ) (a : ℚ) (hne : l ≠ []) (hb : ∀ x ∈ l, a ≤ x) :
    a ≤ qMean l := by
  have hlen : 0 < (l.length : ℚ) := by
    have := List.length_pos.mpr hne
    exact_mod_cast this
  have hsum : (l.length : ℚ) * a ≤ l.sum := by
    have := List.card_nsmul_le_sum l a hb
    rwa [nsmul_eq_mul] at this
  rw [qMean, le_div_iff₀ hlen]
  linarith

/-- A common upper bound of a non-empty list dominates its mean. -/
lemma qMean_le (l : List ℚ) (b : ℚ) (hne : l ≠ []) (hb : ∀ x ∈ l, x ≤ b) :
    qMean l ≤ b := by
  have hlen : 0 < (l.length : ℚ) := by
    have := List.length_pos.mpr hne
    exact_mod_cast this
  have hsum : l.sum ≤ (l.length : ℚ) * b := by
    have := List.sum_le_card_nsmul l b hb
    rwa [nsmul_eq_mul] at this
  rw [qMean, div_le_iff₀ hlen]
  linarith

/-- `mapOpt` succeeds when every element succeeds. -/
lemma mapOpt_isSome (f : α → Option β) (l : List α) (h : ∀ a ∈ l, (f a).isSome = true) :
    ∃ bs, mapOpt f l = some bs := by
  induction l with
  | nil => exact ⟨[], rfl⟩
  | cons a t ih =>
    obtain ⟨b, hb⟩ := Option.isSome_iff_exists.mp (h a (List.mem_cons_self a t))
    obtain ⟨bs, hbs⟩ := ih (fun x hx => h x (List.mem_cons_of_mem a hx))
    exact ⟨b :: bs, by simp [mapOpt, hb, hbs]⟩

/-- `mapExc` success relates inputs and outputs pointwise. -/
lemma mapExc_ok_forall₂ (f : α → Except ε β) (l : List α) (bs : List β)
    (h : mapExc f l = .ok bs) : List.Forall₂ (fun a b => f a = .ok b) l bs := by
  induction l generalizing bs with
  | nil =>
    simp only [mapExc] at h
    cases h
    exact List.Forall₂.nil
  | cons a t ih =>
    simp only [mapExc] at h
    cases hfa : f a with
    | error e => rw [hfa] at h; simp at h
    | ok b =>
      rw [hfa] at h
      cases hft : mapExc f t with
      | error e => rw [hft] at h; simp at h
      | ok ts =>
        rw [hft] at h
        simp only [Except.ok.injEq] at h
        subst h
        exact List.Forall₂.cons hfa (ih ts hft)

/-- Association-list lookup succeeds on every listed key. -/
lemma lookup_isSome_of_mem_keys (l : List (String × β)) (c : String)
    (h : c ∈ l.map Prod.fst) : (l.lookup c).isSome = true := by
  induction l with
  | nil => simp at h
  | cons p t ih =>
    simp only [List.map_cons, List.mem_cons] at h
    by_cases hc : c = p.1
    · subst hc
      simp [List.lookup]
    · have : c ∈ t.map Prod.fst := by tauto
      simpa [List.lookup, (by simp [hc] : (c == p.1) = false)] using ih this

/-- Truncation changes only the rows, never the columns. -/
lemma truncAtBlank_cols (f : Frame) : (Balance.truncAtBlank f).cols = f.cols := by
  simp only [Balance.truncAtBlank]
  split <;> rfl

/-- A column surviving the `isin` restriction is `Parameter` or one of the
year's quarter labels. -/
lemma selected_col_cases (f : Frame) (y : String) (c : String)
    (h : c ∈ (Frame.selectCols f (Balance.keepCols y)).cols) :
    c = "Parameter" ∨ c ∈ (Balance.quarterMapping y).map Prod.fst := by
  simp only [Frame.selectCols, List.mem_filter] at h
  have h2 : c ∈ Balance.keepCols y := by simpa using h.2
  simpa [Balance.keepCols] using h2

/-- When every non-`Parameter` column is a key of the quarter mapping and a
`Parameter` column is present, the melt succeeds and yields the long
format columns. -/
lemma meltYear_ok_of (y : String) (f2 : Frame) (hp : f2.cols.contains "Parameter" = true)
    (hm : ∀ c ∈ f2.cols, ¬(c = "Parameter") →
      ((Balance.quarterMapping y).lookup c).isSome = true) :
    ∃ rs, Balance.meltYear y f2 = .ok ⟨["Parameter", "Quarter", "Amount ($M)"], rs⟩ := by
  simp only [Balance.meltYear, hp]
  have hall : ∀ t ∈ ((f2.cols.filter (fun c => !(c == "Parameter"))).flatMap (fun c =>
      ((f2.rows.filter (fun r => !(rowAllNull (dropParam f2.cols r)))).map (fun r =>
        (cellAt f2.cols r "Parameter", c, cellAt f2.cols r c))))),
      (((Balance.quarterMapping y).lookup t.2.1).map
        (fun (i : Nat) => [t.1, Cell.num (i : ℚ), t.2.2])).isSome = true := by
    intro t ht
    rw [List.mem_flatMap] at ht
    obtain ⟨c, hc, ht2⟩ := ht
    rw [List.mem_filter] at hc
    rw [List.mem_map] at ht2
    obtain ⟨r, _, hr⟩ := ht2
    have hceq : t.2.1 = c := by rw [← hr]
    have hcne : ¬(c = "Parameter") := by
      intro hceq2
      rw [hceq2] at hc
      simp at hc
    have hsome := hm c hc.1 hcne
    rw [hceq]
    cases hlk : (Balance.quarterMapping y).lookup c with
    | none => rw [hlk] at hsome; simp at hsome
    | some i => simp
  obtain ⟨bs, hbs⟩ := mapOpt_isSome _ _ hall
  rw [hbs]
  exact ⟨bs, rfl⟩

/-- Any successful melt yields the long-format column list. -/
lemma meltYear_ok_cols (y : String) (f2 : Frame) (g : Frame)
    (h : Balance.meltYear y f2 = .ok g) : g.cols = ["Parameter", "Quarter", "Amount ($M)"] := by
  simp only [Balance.meltYear] at h
  split at h
  · cases h
  · split at h
    · cases h
    · cases h
      rfl

/-- Case analysis on the value stored back for one year: a zero-row frame
is kept, otherwise the canonical empty frame or a melted long frame. -/
lemma transformYearStore_ok_cases (y : String) (f g : Frame)
    (h : Balance.transformYearStore y f = .ok g) :
    (f.rows = [] ∧ g = f) ∨ g = Balance.emptyFrame ∨
      g.cols = ["Parameter", "Quarter", "Amount ($M)"] := by
  simp only [Balance.transformYearStore] at h
  split at h
  · left
    cases h
    constructor
    · rename_i hz
      simpa using hz
    · rfl
  · split at h
    · right; left; cases h; rfl
    · right; right; exact meltYear_ok_cols _ _ _ h

/-- Under the conditions the claims assume (at least one row, a surviving
`Parameter` column and at least two surviving columns) the per-year store
is a melted long frame. -/
lemma transformYearStore_ok_melted (y : String) (f : Frame)
    (hr : f.rows ≠ [])
    (hp : "Parameter" ∈ (Frame.selectCols f (Balance.keepCols y)).cols)
    (hl : 2 ≤ (Frame.selectCols f (Balance.keepCols y)).cols.length) :
    ∃ rs, Balance.transformYearStore y f = .ok ⟨["Parameter", "Quarter", "Amount ($M)"], rs⟩ := by
  simp only [Balance.transformYearStore]
  rw [if_neg (by simpa using hr), if_neg (by omega)]
  apply meltYear_ok_of
  · rw [truncAtBlank_cols]
    simpa using hp
  · intro c hc hcne
    rw [truncAtBlank_cols] at hc
    rcases selected_col_cases f y c hc with h | h
    · exact absurd h hcne
    · exact lookup_isSome_of_mem_keys _ _ h

/-- Folding the column union over identical column lists is the identity. -/
lemma unionCols_const (M : List String) (l : List (List String))
    (hall : ∀ cs ∈ l, cs = M) (hne : l ≠ []) : unionCols l = M := by
  have hself : M.filter (fun c => !(M.contains c)) = [] := by
    rw [List.filter_eq_nil_iff]
    intro a ha
    simp [ha]
  have step1 : ∀ acc cs, cs = M → (acc = [] ∨ acc = M) →
      acc ++ cs.filter (fun c => !(acc.contains c)) = M := by
    intro acc cs hcs hacc
    subst hcs
    rcases hacc with h | h
    · subst h
      simp
    · subst h
      rw [hself, List.append_nil]
  have main : ∀ l2 : List (List String), (∀ cs ∈ l2, cs = M) →
      ∀ acc, (acc = [] ∨ acc = M) →
        (l2.foldl (fun acc cs => acc ++ cs.filter (fun c => !(acc.contains c))) acc = acc ∧
          l2 = []) ∨
        l2.foldl (fun acc cs => acc ++ cs.filter (fun c => !(acc.contains c))) acc = M := by
    intro l2
    induction l2 with
    | nil => intro _ acc hacc; left; exact ⟨rfl, rfl⟩
    | cons cs t ih =>
      intro hall2 acc hacc
      right
      have hcs : cs = M := hall2 cs (List.mem_cons_self cs t)
      have hstep := step1 acc cs hcs hacc
      rcases ih (fun x hx => hall2 x (List.mem_cons_of_mem cs hx)) _ (Or.inr hstep) with
        ⟨h1, _⟩ | h1
      · rw [List.foldl_cons, h1, hstep]
      · rw [List.foldl_cons]
        exact h1
  rcases main l hall [] (Or.inl rfl) with ⟨_, h2⟩ | h
  · exact absurd h2 hne
  · exact h

/-- `findIdx` over a list whose prefix all fails the predicate and whose
next element satisfies it returns the prefix length. -/
lemma findIdx_append_first (p : α → Bool) (l1 l2 : List α) (b : α)
    (h1 : ∀ x ∈ l1, p x = false) (hb : p b = true) :
    (l1 ++ b :: l2).findIdx p = l1.length := by
  induction l1 with
  | nil => simp [List.findIdx_cons, hb]
  | cons a t ih =>
    have ha : p a = false := h1 a (List.mem_cons_self a t)
    rw [List.cons_append, List.findIdx_cons, ha]
    simp only [cond_false]
    rw [ih (fun x hx => h1 x (List.mem_cons_of_mem a hx))]
    rfl

/-- `mapExc` succeeds when every element succeeds. -/
lemma mapExc_ok_of_all (f : α → Except ε β) (l : List α)
    (h : ∀ a ∈ l, ∃ b, f a = .ok b) : ∃ bs, mapExc f l = .ok bs := by
  induction l with
  | nil => exact ⟨[], rfl⟩
  | cons a t ih =>
    obtain ⟨b, hb⟩ := h a (List.mem_cons_self a t)
    obtain ⟨bs, hbs⟩ := ih (fun x hx => h x (List.mem_cons_of_mem a hx))
    exact ⟨b :: bs, by simp [mapExc, hb, hbs]⟩

/-- The `UnmappedQuarterColumn` branch of the per-year transform is dead
code: the `isin` restriction only lets mapped quarter labels (or
`Parameter`) survive. -/
lemma transformYearStore_ne_unmapped (y : String) (g : Frame) :
    Balance.transformYearStore y g ≠ .error "UnmappedQuarterColumn" := by
  simp only [Balance.transformYearStore]
  split
  · simp
  · split
    · simp
    · have hcols : (Balance.truncAtBlank (Frame.selectCols g (Balance.keepCols y))).cols =
        (Frame.selectCols g (Balance.keepCols y)).cols := truncAtBlank_cols _
      by_cases hp :
          (Balance.truncAtBlank (Frame.selectCols g (Balance.keepCols y))).cols.contains
            "Parameter" = true
      · have hm : ∀ c ∈ (Balance.truncAtBlank (Frame.selectCols g (Balance.keepCols y))).cols,
            ¬(c = "Parameter") → ((Balance.quarterMapping y).lookup c).isSome = true := by
          intro c hcmem hcne
          rw [hcols] at hcmem
          rcases selected_col_cases g y c hcmem with h | h
          · exact absurd h hcne
          · exact lookup_isSome_of_mem_keys _ _ h
        obtain ⟨rs, hrs⟩ := meltYear_ok_of y _ hp hm
        rw [hrs]
        simp
      · simp only [Balance.meltYear]
        rw [if_pos (by simpa using hp)]
        simp

/-- C5: after the column restriction of `Balance.transform`, every surviving
non-`Parameter` column name is a key of the year's quarter mapping, so the
`UnmappedQuarterColumn` error is unreachable for any input frame. -/
theorem unmapped_quarter_unreachable (y : String) (f g : Frame) (c : String)
    (hc : c ∈ (Frame.selectCols f (Balance.keepCols y)).cols) (hne : ¬(c = "Parameter")) :
    ((Balance.quarterMapping y).lookup c).isSome = true ∧
    Balance.transformYearStore y g ≠ .error "UnmappedQuarterColumn" := by
  constructor
  · rcases selected_col_cases f y c hc with h | h
    · exact absurd h hne
    · exact lookup_isSome_of_mem_keys _ _ h
  · exact transformYearStore_ne_unmapped y g

/-- Witness for C5 at a concrete frame and surviving quarter column. -/
theorem unmapped_quarter_unreachable_witness :
    ((Balance.quarterMapping "2020").lookup "I квартал 2020 г.").isSome = true ∧
    Balance.transformYearStore "2020" ⟨["Parameter"], []⟩ ≠ .error "UnmappedQuarterColumn" :=
  unmapped_quarter_unreachable "2020"
    ⟨["Parameter", "I квартал 2020 г."], [[Cell.str "X", Cell.num 1]]⟩
    ⟨["Parameter"], []⟩ "I квартал 2020 г." (by decide) (by decide)

/-- C9: with parseable ISO dates, a start not after the end and a path
ending in the expected extension validation succeeds (the granularity flag
is `Bool`-typed, so its type check always passes); with parseable dates and
start after end it fails with the message naming the range violation. -/
theorem check_input_params_spec (s e p : String) (b : Bool) (ds de : PDate)
    (hs : parseDate s = some ds) (he : parseDate e = some de) :
    (dateLtB de ds = false → endsWithCsv p = true →
      check_input_params s e p b = .ok ()) ∧
    (dateLtB de ds = true →
      check_input_params s e p b = .error "start_date must be <= end_date") := by
  constructor
  · intro hlt hcsv
    simp [check_input_params, hs, he, hlt, hcsv]
  · intro hlt
    simp [check_input_params, hs, he, hlt]

/-- Witness for C9: a valid range validates, a reversed range fails with
the range message. -/
theorem check_input_params_spec_witness :
    check_input_params "2020-01-01" "2020-01-02" "a.csv" false = .ok () ∧
    check_input_params "2020-01-03" "2020-01-02" "a.csv" false =
      .error "start_date must be <= end_date" := by
  constructor
  · exact (check_input_params_spec "2020-01-01" "2020-01-02" "a.csv" false
      ⟨2020, 1, 1⟩ ⟨2020, 1, 2⟩ (by decide) (by decide)).1 (by decide) (by decide)
  · exact (check_input_params_spec "2020-01-03" "2020-01-02" "a.csv" false
      ⟨2020, 1, 3⟩ ⟨2020, 1, 2⟩ (by decide) (by decide)).2 (by decide)

/-- C8: the transforms are deterministic functions of their raw input: two
identical copies of a raw input produce identical tidy tables, for both the
currency adapter and the balance adapter. -/
theorem transform_deterministic (b : Bool) (iw : Nat → Nat) (f1 f2 : CFrame)
    (hf : f1 = f2) (frames1 frames2 : List (String × Frame)) (hfr : frames1 = frames2) :
    CurrencyRate.transform b iw f1 = CurrencyRate.transform b iw f2 ∧
    Balance.transform frames1 = Balance.transform frames2 := by
  subst hf
  subst hfr
  exact ⟨rfl, rfl⟩

/-- Witness for C8 at concrete one-row inputs. -/
theorem transform_deterministic_witness :
    CurrencyRate.transform false (fun d => d / 7)
        ⟨["Date", "Symbol", "Open", "High", "Low", "Close", "Adj Close", "Volume"],
         [⟨0, "RUB=X", 10, 12, 9, 11⟩]⟩ =
      CurrencyRate.transform false (fun d => d / 7)
        ⟨["Date", "Symbol", "Open", "High", "Low", "Close", "Adj Close", "Volume"],
         [⟨0, "RUB=X", 10, 12, 9, 11⟩]⟩ ∧
    Balance.transform [("2020", ⟨["Parameter", "I квартал 2020 г."],
        [[Cell.str "X", Cell.num 100]]⟩)] =
      Balance.transform [("2020", ⟨["Parameter", "I квартал 2020 г."],
        [[Cell.str "X", Cell.num 100]]⟩)] :=
  transform_deterministic false (fun d => d / 7) _ _ rfl _ _ rfl

/-- C4: an empty raw input (zero rows, raw extraction schema) yields, with
no error, an empty table carrying the documented output column set for each
adapter and granularity; an empty year mapping yields the canonical empty
balance schema. -/
theorem empty_input_schema (iw : Nat → Nat) (fc : CFrame) (fw : WeFrame)
    (hc : fc.cols = ["Date", "Symbol", "Open", "High", "Low", "Close", "Adj Close", "Volume"])
    (hcr : fc.rows = [])
    (hw : fw.cols = ["STATION", "DATE", "NAME", "TEMP"]) (hwr : fw.rows = []) :
    CurrencyRate.transform true iw fc =
      .ok (.daily ⟨["Date", "Symbol", "Open", "High", "Low", "Close"], []⟩) ∧
    CurrencyRate.transform false iw fc =
      .ok (.weekly ⟨["Symbol", "Start Week", "End Week", "Open", "Low", "High", "Close"], []⟩) ∧
    AvgTemp.transform true iw fw = .ok (.daily ⟨["Station", "Date", "Name", "Temp"], []⟩) ∧
    AvgTemp.transform false iw fw =
      .ok (.weekly ⟨["Station", "Name", "Start_Week", "End_Week", "Temp"], []⟩) ∧
    Balance.transform [] = .ok Balance.emptyFrame := by
  obtain ⟨ccols, crows⟩ := fc
  obtain ⟨wcols, wrows⟩ := fw
  simp only at hc hcr hw hwr
  subst hc
  subst hcr
  subst hw
  subst hwr
  exact ⟨rfl, rfl, rfl, rfl, rfl⟩

/-- Witness for C4 at the concrete empty raw frames. -/
theorem empty_input_schema_witness :
    CurrencyRate.transform true (fun d => d / 7)
        ⟨["Date", "Symbol", "Open", "High", "Low", "Close", "Adj Close", "Volume"], []⟩ =
      .ok (.daily ⟨["Date", "Symbol", "Open", "High", "Low", "Close"], []⟩) ∧
    CurrencyRate.transform false (fun d => d / 7)
        ⟨["Date", "Symbol", "Open", "High", "Low", "Close", "Adj Close", "Volume"], []⟩ =
      .ok (.weekly ⟨["Symbol", "Start Week", "End Week", "Open", "Low", "High", "Close"], []⟩) ∧
    AvgTemp.transform true (fun d => d / 7) ⟨["STATION", "DATE", "NAME", "TEMP"], []⟩ =
      .ok (.daily ⟨["Station", "Date", "Name", "Temp"], []⟩) ∧
    AvgTemp.transform false (fun d => d / 7) ⟨["STATION", "DATE", "NAME", "TEMP"], []⟩ =
      .ok (.weekly ⟨["Station", "Name", "Start_Week", "End_Week", "Temp"], []⟩) ∧
    Balance.transform [] = .ok Balance.emptyFrame :=
  empty_input_schema (fun d => d / 7) _ _ rfl rfl rfl rfl

/-- Equality of modelled call results is decidable, so concrete runs can be
checked by evaluation. -/
instance {ε α : Type} [DecidableEq ε] [DecidableEq α] : DecidableEq (Except ε α) := fun a b =>
  match a, b with
  | .error e1, .error e2 =>
    if h : e1 = e2 then isTrue (by rw [h]) else isFalse (by intro hc; cases hc; exact h rfl)
  | .ok v1, .ok v2 =>
    if h : v1 = v2 then isTrue (by rw [h]) else isFalse (by intro hc; cases hc; exact h rfl)
  | .error e1, .ok v2 => isFalse (by intro hc; cases hc)
  | .ok v1, .error e2 => isFalse (by intro hc; cases hc)

/-- Every element of the right list of a pointwise relation has a related
element on the left. -/
lemma forall₂_exists_left {R : α → β → Prop} (l1 : List α) (l2 : List β)
    (h : List.Forall₂ R l1 l2) (b : β) (hb : b ∈ l2) : ∃ a ∈ l1, R a b := by
  induction h with
  | nil => cases hb
  | cons hr ht ih =>
    rcases List.mem_cons.mp hb with h1 | h1
    · subst h1
      exact ⟨_, List.mem_cons_self _ _, hr⟩
    · obtain ⟨a, ha, har⟩ := ih h1
      exact ⟨a, List.mem_cons_of_mem _ ha, har⟩

/-- C10 counterexample: a year frame with zero rows is skipped by the loop
(`continue`), so after the call its entry in the mapping still holds the
original raw wide frame, not a melted long table and not the canonical
empty frame — refuting the claim that every entry is replaced. -/
theorem balance_mutation_cex :
    Balance.transformState [("2020", ⟨["Parameter", "I квартал 2020 г."], []⟩)] =
      .ok ([("2020", ⟨["Parameter", "I квартал 2020 г."], []⟩)],
        ⟨["Parameter", "I квартал 2020 г."], []⟩) ∧
    (⟨["Parameter", "I квартал 2020 г."], []⟩ : Frame) ≠ Balance.emptyFrame ∧
    (⟨["Parameter", "I квартал 2020 г."], []⟩ : Frame).cols ≠
      ["Parameter", "Quarter", "Amount ($M)"] :=
  ⟨by decide, by decide, by decide⟩

/-- C10 (amended): the transform mutates the caller's mapping in place and
after the call every entry whose original frame had at least one row holds
either the canonical empty frame or that year's melted long-format table,
while zero-row entries are left untouched. -/
theorem balance_mutation_updates (frames updated : List (String × Frame)) (result : Frame)
    (h : Balance.transformState frames = .ok (updated, result)) :
    List.Forall₂ (fun p q => q.1 = p.1 ∧
      ((p.2.rows = [] ∧ q.2 = p.2) ∨ q.2 = Balance.emptyFrame ∨
        q.2.cols = ["Parameter", "Quarter", "Amount ($M)"])) frames updated := by
  simp only [Balance.transformState] at h
  split at h
  · rename_i hz
    cases h
    have hnil : frames = [] := List.length_eq_zero.mp (by simpa using hz)
    subst hnil
    exact List.Forall₂.nil
  · split at h
    · cases h
    · rename_i ups hm
      cases h
      have h2 := mapExc_ok_forall₂ _ _ _ hm
      refine List.Forall₂.imp ?_ h2
      intro p q hpq
      cases hts : Balance.transformYearStore p.1 p.2 with
      | error e =>
        rw [hts] at hpq
        simp [Except.map] at hpq
      | ok g =>
        rw [hts] at hpq
        simp only [Except.map] at hpq
        cases hpq
        refine ⟨rfl, ?_⟩
        rcases transformYearStore_ok_cases p.1 p.2 g hts with ⟨h1a, h1b⟩ | hg | hg
        · exact Or.inl ⟨h1a, h1b⟩
        · exact Or.inr (Or.inl hg)
        · exact Or.inr (Or.inr hg)

/-- Witness for the amended C10 at a one-year mapping with data. -/
theorem balance_mutation_updates_witness :
    List.Forall₂ (fun p q => q.1 = p.1 ∧
      ((p.2.rows = [] ∧ q.2 = p.2) ∨ q.2 = Balance.emptyFrame ∨
        q.2.cols = ["Parameter", "Quarter", "Amount ($M)"]))
      [("2021", ⟨["Parameter", "I квартал 2021 г."], [[Cell.str "Y", Cell.num 5]]⟩)]
      [("2021", ⟨["Parameter", "Quarter", "Amount ($M)"],
        [[Cell.str "Y", Cell.num 1, Cell.num 5]]⟩)] :=
  balance_mutation_updates
    [("2021", ⟨["Parameter", "I квартал 2021 г."], [[Cell.str "Y", Cell.num 5]]⟩)]
    [("2021", ⟨["Parameter", "Quarter", "Amount ($M)"],
      [[Cell.str "Y", Cell.num 1, Cell.num 5]]⟩)]
    ⟨["Parameter", "Quarter", "Amount ($M)"], [[Cell.str "Y", Cell.num 1, Cell.num 5]]⟩
    (by decide)

/-- C1 counterexample: a non-empty mapping with one ordinary year melts to
the columns Parameter, Quarter, Amount ($M); the canonical schema of the
claim (with Start_Quarter and End_Quarter) does not appear — the output
column set differs from the one the claim states. -/
theorem balance_transform_schema_cex :
    Balance.transform [("2020", ⟨["Parameter", "I квартал 2020 г."],
        [[Cell.str "X", Cell.num 100]]⟩)] =
      .ok ⟨["Parameter", "Quarter", "Amount ($M)"],
        [[Cell.str "X", Cell.num 1, Cell.num 100]]⟩ ∧
    "Start_Quarter" ∉ (["Parameter", "Quarter", "Amount ($M)"] : List String) :=
  ⟨by decide, by decide⟩

/-- C1 (amended): for every non-empty mapping whose year frames each have
at least one row, a surviving `Parameter` column and at least one matching
quarter column, the transform succeeds and returns a table whose columns
are exactly Parameter, Quarter, Amount ($M), with quarter ordinals 1-4 in
the Quarter column; the canonical 4-column schema appears only for the
empty mapping or for years contributing no quarter data. -/
theorem balance_transform_nonempty_schema (frames : List (String × Frame))
    (hne : frames ≠ [])
    (hall : ∀ p ∈ frames, p.2.rows ≠ [] ∧
      "Parameter" ∈ (Frame.selectCols p.2 (Balance.keepCols p.1)).cols ∧
      2 ≤ (Frame.selectCols p.2 (Balance.keepCols p.1)).cols.length) :
    (Balance.transform frames).map Frame.cols =
      .ok ["Parameter", "Quarter", "Amount ($M)"] := by
  have hstore : ∀ p ∈ frames, ∃ rs, Balance.transformYearStore p.1 p.2 =
      .ok ⟨["Parameter", "Quarter", "Amount ($M)"], rs⟩ := by
    intro p hp
    obtain ⟨h1, h2, h3⟩ := hall p hp
    exact transformYearStore_ok_melted p.1 p.2 h1 h2 h3
  have hmap : ∀ p ∈ frames, ∃ q,
      (Balance.transformYearStore p.1 p.2).map (fun f => (p.1, f)) = .ok q := by
    intro p hp
    obtain ⟨rs, hrs⟩ := hstore p hp
    exact ⟨(p.1, ⟨["Parameter", "Quarter", "Amount ($M)"], rs⟩), by rw [hrs]; rfl⟩
  obtain ⟨ups, hups⟩ := mapExc_ok_of_all _ _ hmap
  have hf2 := mapExc_ok_forall₂ _ _ _ hups
  have hcols : ∀ cs ∈ (ups.map Prod.snd).map Frame.cols,
      cs = ["Parameter", "Quarter", "Amount ($M)"] := by
    intro cs hcs
    rw [List.mem_map] at hcs
    obtain ⟨fr, hfr, hfc⟩ := hcs
    rw [List.mem_map] at hfr
    obtain ⟨q, hq, hqf⟩ := hfr
    obtain ⟨p, hp, hpq⟩ := forall₂_exists_left _ _ hf2 q hq
    obtain ⟨rs, hrs⟩ := hstore p hp
    rw [hrs] at hpq
    simp only [Except.map] at hpq
    cases hpq
    rw [← hfc, ← hqf]
  have hupsne : ups ≠ [] := by
    intro hcon
    subst hcon
    have hlen := List.Forall₂.length_eq hf2
    simp only [List.length_nil, List.length_eq_zero] at hlen
    exact hne hlen
  have htr : Balance.transform frames = .ok (concatFrames (ups.map Prod.snd)) := by
    simp only [Balance.transform, Balance.transformState]
    rw [if_neg (by simpa using hne), hups]
    rfl
  have hcol : (concatFrames (ups.map Prod.snd)).cols =
      ["Parameter", "Quarter", "Amount ($M)"] := by
    show unionCols ((ups.map Prod.snd).map Frame.cols) = _
    exact unionCols_const _ _ hcols (by simpa using hupsne)
  rw [htr]
  simp only [Except.map]
  rw [hcol]

/-- Witness for the amended C1 at a one-year mapping with two quarters. -/
theorem balance_transform_nonempty_schema_witness :
    (Balance.transform [("2022", ⟨["Parameter", "I квартал 2022 г.", "II квартал 2022 г."],
      [[Cell.str "Z", Cell.num 3, Cell.num 4]]⟩)]).map Frame.cols =
      .ok ["Parameter", "Quarter", "Amount ($M)"] :=
  balance_transform_nonempty_schema
    [("2022", ⟨["Parameter", "I квартал 2022 г.", "II квартал 2022 г."],
      [[Cell.str "Z", Cell.num 3, Cell.num 4]]⟩)]
    (by decide) (by decide)

/-- A synthetic parsed combined 92-93 spreadsheet: one data row under the
eight Cyrillic quarter columns covering both years, as `pd.read_excel`
would deliver it after the `Parameter` rename. -/
def bopSheet9293 : Frame :=
  ⟨["Parameter", "I квартал 1992 г.", "II квартал 1992 г.", "III квартал 1992 г.",
    "IV квартал 1992 г.", "I квартал 1993 г.", "II квартал 1993 г.", "III квартал 1993 г.",
    "IV квартал 1993 г."],
   [[Cell.str "Account", Cell.num 10, Cell.num 20, Cell.num 30, Cell.num 40,
     Cell.num 50, Cell.num 60, Cell.num 70, Cell.num 80]]⟩

/-- C3: for the requested range [1991, 1994] with only the combined
92-93 file listed, extraction resolves exactly the years 1992 and 1993
(1991 and 1994 are skipped silently, whatever the fetched sheets hold),
and the transform of the extracted mapping melts rows for 1992 and 1993
only — each year contributing its own four quarters — with no error. -/
theorem balance_year_gap (fetch : Int → Frame) :
    (Balance.extractFrames 1991 1994 ["57-bop_92-93.xlsx"] fetch).map Prod.fst =
      ["1992", "1993"] ∧
    Balance.transform (Balance.extractFrames 1991 1994 ["57-bop_92-93.xlsx"]
        (fun _ => bopSheet9293)) =
      .ok ⟨["Parameter", "Quarter", "Amount ($M)"],
        [[Cell.str "Account", Cell.num 1, Cell.num 10],
         [Cell.str "Account", Cell.num 2, Cell.num 20],
         [Cell.str "Account", Cell.num 3, Cell.num 30],
         [Cell.str "Account", Cell.num 4, Cell.num 40],
         [Cell.str "Account", Cell.num 1, Cell.num 50],
         [Cell.str "Account", Cell.num 2, Cell.num 60],
         [Cell.str "Account", Cell.num 3, Cell.num 70],
         [Cell.str "Account", Cell.num 4, Cell.num 80]]⟩ := by
  constructor
  · rfl
  · decide

/-- Witness for C3 at the synthetic fetch function. -/
theorem balance_year_gap_witness :
    (Balance.extractFrames 1991 1994 ["57-bop_92-93.xlsx"] (fun _ => bopSheet9293)).map
        Prod.fst = ["1992", "1993"] ∧
    Balance.transform (Balance.extractFrames 1991 1994 ["57-bop_92-93.xlsx"]
        (fun _ => bopSheet9293)) =
      .ok ⟨["Parameter", "Quarter", "Amount ($M)"],
        [[Cell.str "Account", Cell.num 1, Cell.num 10],
         [Cell.str "Account", Cell.num 2, Cell.num 20],
         [Cell.str "Account", Cell.num 3, Cell.num 30],
         [Cell.str "Account", Cell.num 4, Cell.num 40],
         [Cell.str "Account", Cell.num 1, Cell.num 50],
         [Cell.str "Account", Cell.num 2, Cell.num 60],
         [Cell.str "Account", Cell.num 3, Cell.num 70],
         [Cell.str "Account", Cell.num 4, Cell.num 80]]⟩ :=
  balance_year_gap (fun _ => bopSheet9293)

/-- Truncation at an explicit first all-null row: with a prefix of rows
that are not fully null followed by a fully-null row, the cut lands exactly
at the prefix. -/
lemma truncAtBlank_of_first_blank (C : List String) (pre post : List (List Cell))
    (b : List Cell) (hpre : ∀ r ∈ pre, rowAllNull r = false) (hb : rowAllNull b = true) :
    Balance.truncAtBlank ⟨C, pre ++ b :: post⟩ = ⟨C, pre⟩ := by
  have hmask : ((pre ++ b :: post).map rowAllNull) =
      pre.map rowAllNull ++ rowAllNull b :: post.map rowAllNull := by
    simp
  have hany : ((pre ++ b :: post).map rowAllNull).any (fun x => x) = true := by
    rw [hmask]
    apply List.any_eq_true.mpr
    exact ⟨rowAllNull b, by simp, hb⟩
  have hidx : ((pre ++ b :: post).map rowAllNull).findIdx (fun x => x) = pre.length := by
    rw [hmask]
    rw [findIdx_append_first (fun x => x) (pre.map rowAllNull) (post.map rowAllNull)
      (rowAllNull b) ?hpre hb]
    · exact List.length_map pre rowAllNull
    case hpre =>
      intro x hx
      rw [List.mem_map] at hx
      obtain ⟨r, hr, hxr⟩ := hx
      rw [← hxr]
      exact hpre r hr
  simp only [Balance.truncAtBlank]
  rw [if_pos hany]
  have htake : (pre ++ b :: post).take pre.length = pre := List.take_left pre (b :: post)
  simp only [hidx, htake]

/-- Two frames over the same columns whose restricted-and-truncated forms
coincide are transformed identically year-wise (given both have rows). -/
lemma transformYearStore_congr (year : String) (cols : List String)
    (rows1 rows2 : List (List Cell)) (h1 : rows1 ≠ []) (h2 : rows2 ≠ [])
    (htr : Balance.truncAtBlank (Frame.selectCols ⟨cols, rows1⟩ (Balance.keepCols year)) =
      Balance.truncAtBlank (Frame.selectCols ⟨cols, rows2⟩ (Balance.keepCols year))) :
    Balance.transformYearStore year ⟨cols, rows1⟩ =
      Balance.transformYearStore year ⟨cols, rows2⟩ := by
  simp only [Balance.transformYearStore]
  rw [if_neg (show ¬((rows1.length == 0) = true) by simpa using h1),
    if_neg (show ¬((rows2.length == 0) = true) by simpa using h2)]
  dsimp only [Frame.selectCols] at htr ⊢
  by_cases hlt : (cols.filter (fun c => (Balance.keepCols year).contains c)).length < 2
  · rw [if_pos hlt, if_pos hlt]
  · rw [if_neg hlt, if_neg hlt, htr]

/-- C2 counterexample: with data rows, then a row whose quarter columns are
all null but whose Parameter cell is not null, then a further footnote-like
row carrying a quarter value, the transform does not truncate: the footnote
row B (which lies strictly after the quarter-blank row) still reaches the
melted output, refuting truncation at the first quarter-blank row. -/
theorem balance_truncation_cex :
    Balance.transform [("2020", ⟨["Parameter", "I квартал 2020 г."],
      [[Cell.str "A", Cell.num 1], [Cell.str "note", Cell.null],
       [Cell.str "B", Cell.num 99]]⟩)] =
      .ok ⟨["Parameter", "Quarter", "Amount ($M)"],
        [[Cell.str "A", Cell.num 1, Cell.num 1],
         [Cell.str "B", Cell.num 1, Cell.num 99]]⟩ ∧
    (([[Cell.str "A", Cell.num 1, Cell.num 1],
       [Cell.str "B", Cell.num 1, Cell.num 99]] : List (List Cell)).any
      (fun r => r.contains (Cell.str "B"))) = true :=
  ⟨by decide, by decide⟩

/-- C2 (amended): truncation triggers at the first row of the restricted
sheet in which every cell — the Parameter cell included — is null; rows
after that first fully-blank row never influence the year's output, and
when no fully-blank row exists the whole sheet is kept (a row whose quarter
cells are null but whose Parameter cell is not does not truncate; it is
only dropped by the later all-null-quarter row drop). -/
theorem balance_truncation_at_first_blank (year : String) (cols : List String)
    (pre post : List (List Cell)) (b : List Cell)
    (hpre : ∀ r ∈ pre, rowAllNull (filterRowKeep (Balance.keepCols year) cols r) = false)
    (hb : rowAllNull (filterRowKeep (Balance.keepCols year) cols b) = true) :
    Balance.transformYearStore year ⟨cols, pre ++ b :: post⟩ =
      Balance.transformYearStore year ⟨cols, pre ++ [b]⟩ := by
  apply transformYearStore_congr year cols _ _ (by simp) (by simp)
  have hsel : ∀ rows : List (List Cell),
      Frame.selectCols ⟨cols, rows⟩ (Balance.keepCols year) =
        ⟨cols.filter (fun c => (Balance.keepCols year).contains c),
         rows.map (filterRowKeep (Balance.keepCols year) cols)⟩ := fun rows => rfl
  rw [hsel, hsel]
  have hmap1 : (pre ++ b :: post).map (filterRowKeep (Balance.keepCols year) cols) =
      pre.map (filterRowKeep (Balance.keepCols year) cols) ++
        filterRowKeep (Balance.keepCols year) cols b ::
        post.map (filterRowKeep (Balance.keepCols year) cols) := by
    simp
  have hmap2 : (pre ++ [b]).map (filterRowKeep (Balance.keepCols year) cols) =
      pre.map (filterRowKeep (Balance.keepCols year) cols) ++
        filterRowKeep (Balance.keepCols year) cols b :: [] := by
    simp
  rw [hmap1, hmap2]
  have hpre2 : ∀ r ∈ pre.map (filterRowKeep (Balance.keepCols year) cols),
      rowAllNull r = false := by
    intro r hr
    rw [List.mem_map] at hr
    obtain ⟨r0, hr0, hrr⟩ := hr
    rw [← hrr]
    exact hpre r0 hr0
  rw [truncAtBlank_of_first_blank _ _ _ _ hpre2 hb,
    truncAtBlank_of_first_blank _ _ _ _ hpre2 hb]

/-- Witness for the amended C2: a trailing footnote row after a fully-blank
row yields the same per-year result as the sheet cut right after the blank
row. -/
theorem balance_truncation_at_first_blank_witness :
    Balance.transformYearStore "2020" ⟨["Parameter", "I квартал 2020 г."],
      [[Cell.str "A", Cell.num 1], [Cell.null, Cell.null], [Cell.str "C", Cell.num 7]]⟩ =
    Balance.transformYearStore "2020" ⟨["Parameter", "I квартал 2020 г."],
      [[Cell.str "A", Cell.num 1], [Cell.null, Cell.null]]⟩ :=
  balance_truncation_at_first_blank "2020" ["Parameter", "I квартал 2020 г."]
    [[Cell.str "A", Cell.num 1]] [[Cell.str "C", Cell.num 7]] [Cell.null, Cell.null]
    (by decide) (by decide)

/-- Every weekly output row is the aggregation of the group of daily rows
sharing one (symbol, week) key that occurs in the data. -/
lemma curWeekly_mem (iw : Nat → Nat) (rows : List CRow) (wr : WRow)
    (h : wr ∈ curWeekly iw rows) :
    ∃ k : String × Nat, k ∈ rows.map (curKey iw) ∧
      wr = ⟨k.1,
        aggMin 0 ((rows.filter (fun r => curKey iw r == k)).map CRow.Date),
        aggMax 0 ((rows.filter (fun r => curKey iw r == k)).map CRow.Date),
        qMean ((rows.filter (fun r => curKey iw r == k)).map CRow.Open),
        aggMin 0 ((rows.filter (fun r => curKey iw r == k)).map CRow.Low),
        aggMax 0 ((rows.filter (fun r => curKey iw r == k)).map CRow.High),
        qMean ((rows.filter (fun r => curKey iw r == k)).map CRow.Close)⟩ := by
  simp only [curWeekly, List.mem_map] at h
  obtain ⟨k, hk, hwr⟩ := h
  rw [mem_sortLe, List.mem_dedup] at hk
  exact ⟨k, hk, hwr.symm⟩

/-- The group of a key taken from the data is non-empty. -/
lemma group_ne_nil (iw : Nat → Nat) (rows : List CRow) (k : String × Nat)
    (hk : k ∈ rows.map (curKey iw)) :
    rows.filter (fun r => curKey iw r == k) ≠ [] := by
  rw [List.mem_map] at hk
  obtain ⟨r, hr, hkr⟩ := hk
  intro hcon
  have hmem : r ∈ rows.filter (fun r => curKey iw r == k) :=
    List.mem_filter.mpr ⟨hr, by rw [hkr]; simp⟩
  rw [hcon] at hmem
  cases hmem

/-- Inversion of the periodic currency transform on non-empty input: the
result is the weekly frame with the underscore columns and the grouped
aggregation of the renamed rows. -/
lemma currency_transform_weekly_inv (iw : Nat → Nat) (f : CFrame) (w : WFrame)
    (hne : f.rows ≠ [])
    (h : CurrencyRate.transform false iw f = .ok (.weekly w)) :
    w = ⟨["Symbol", "Start_Week", "End_Week", "Open", "Low", "High", "Close"],
      curWeekly iw (f.rows.map (fun r => { r with Symbol := curRename r.Symbol }))⟩ := by
  simp only [CurrencyRate.transform, Bool.false_eq_true, if_false] at h
  split at h
  · cases h
  · split at h
    · rename_i hz
      exact absurd (by simpa using hz : f.rows = []) hne
    · cases h
      rfl

/-- C6 counterexample: on non-empty input the periodic output columns are
Start_Week and End_Week with underscores, produced by the named
aggregations, not the documented "Start Week"/"End Week" labels that the
empty branch returns. -/
theorem currency_weekly_cols_cex :
    CurrencyRate.transform false (fun _ => 1)
        ⟨["Date", "Symbol", "Open", "High", "Low", "Close", "Adj Close", "Volume"],
         [⟨0, "RUB=X", 10, 12, 9, 11⟩]⟩ =
      .ok (.weekly ⟨["Symbol", "Start_Week", "End_Week", "Open", "Low", "High", "Close"],
        [⟨"USD/RUB", 0, 0, 10, 9, 12, 11⟩]⟩) ∧
    "Start Week" ∉
      (["Symbol", "Start_Week", "End_Week", "Open", "Low", "High", "Close"] : List String) := by
  constructor
  · have e1 : CurrencyRate.transform false (fun _ => 1)
        ⟨["Date", "Symbol", "Open", "High", "Low", "Close", "Adj Close", "Volume"],
         [⟨0, "RUB=X", 10, 12, 9, 11⟩]⟩ =
      .ok (.weekly ⟨["Symbol", "Start_Week", "End_Week", "Open", "Low", "High", "Close"],
        [⟨"USD/RUB", 0, 0, qMean [10], 9, 12, qMean [11]⟩]⟩) := rfl
    rw [e1]
    norm_num [qMean]
  · decide

/-- C6 (amended): for every non-empty raw currency table the periodic
transform groups the renamed rows by (symbol, ISO week number), and each
output row is exactly the aggregation of one occurring group — min date as
period start, max date as period end, mean open, min low, max high, mean
close — with one output row per distinct key; its columns are Symbol,
Start_Week, End_Week, Open, Low, High, Close (underscored, not the
space-separated labels of the documented schema). -/
theorem currency_weekly_grouping (iw : Nat → Nat) (f : CFrame) (w : WFrame)
    (hne : f.rows ≠ [])
    (h : CurrencyRate.transform false iw f = .ok (.weekly w)) :
    w.cols = ["Symbol", "Start_Week", "End_Week", "Open", "Low", "High", "Close"] ∧
    w.rows.length =
      (((f.rows.map (fun r => { r with Symbol := curRename r.Symbol })).map
        (curKey iw)).dedup).length ∧
    ∀ wr ∈ w.rows, ∃ k : String × Nat,
      k ∈ (f.rows.map (fun r => { r with Symbol := curRename r.Symbol })).map (curKey iw) ∧
      (f.rows.map (fun r => { r with Symbol := curRename r.Symbol })).filter
        (fun r => curKey iw r == k) ≠ [] ∧
      wr = ⟨k.1,
        aggMin 0 (((f.rows.map (fun r => { r with Symbol := curRename r.Symbol })).filter
          (fun r => curKey iw r == k)).map CRow.Date),
        aggMax 0 (((f.rows.map (fun r => { r with Symbol := curRename r.Symbol })).filter
          (fun r => curKey iw r == k)).map CRow.Date),
        qMean (((f.rows.map (fun r => { r with Symbol := curRename r.Symbol })).filter
          (fun r => curKey iw r == k)).map CRow.Open),
        aggMin 0 (((f.rows.map (fun r => { r with Symbol := curRename r.Symbol })).filter
          (fun r => curKey iw r == k)).map CRow.Low),
        aggMax 0 (((f.rows.map (fun r => { r with Symbol := curRename r.Symbol })).filter
          (fun r => curKey iw r == k)).map CRow.High),
        qMean (((f.rows.map (fun r => { r with Symbol := curRename r.Symbol })).filter
          (fun r => curKey iw r == k)).map CRow.Close)⟩ := by
  have hw := currency_transform_weekly_inv iw f w hne h
  subst hw
  refine ⟨rfl, ?_, ?_⟩
  · show (curWeekly iw _).length = _
    simp only [curWeekly, List.length_map, length_sortLe]
  · intro wr hmem
    obtain ⟨k, hk, heq⟩ := curWeekly_mem iw _ wr hmem
    exact ⟨k, hk, group_ne_nil iw _ k hk, heq⟩

/-- Witness for the amended C6: the concrete one-row run has the
underscored weekly columns. -/
theorem currency_weekly_grouping_witness :
    (⟨["Symbol", "Start_Week", "End_Week", "Open", "Low", "High", "Close"],
      [⟨"USD/RUB", 0, 0, 10, 9, 12, 11⟩]⟩ : WFrame).cols =
      ["Symbol", "Start_Week", "End_Week", "Open", "Low", "High", "Close"] :=
  (currency_weekly_grouping (fun _ => 1)
    ⟨["Date", "Symbol", "Open", "High", "Low", "Close", "Adj Close", "Volume"],
     [⟨0, "RUB=X", 10, 12, 9, 11⟩]⟩
    ⟨["Symbol", "Start_Week", "End_Week", "Open", "Low", "High", "Close"],
     [⟨"USD/RUB", 0, 0, 10, 9, 12, 11⟩]⟩
    (by decide)
    (by
      have e1 : CurrencyRate.transform false (fun _ => 1)
          ⟨["Date", "Symbol", "Open", "High", "Low", "Close", "Adj Close", "Volume"],
           [⟨0, "RUB=X", 10, 12, 9, 11⟩]⟩ =
        .ok (.weekly ⟨["Symbol", "Start_Week", "End_Week", "Open", "Low", "High", "Close"],
          [⟨"USD/RUB", 0, 0, qMean [10], 9, 12, qMean [11]⟩]⟩) := rfl
      rw [e1]
      norm_num [qMean])).1

/-- C7: whenever every raw daily row satisfies low ≤ open ≤ high and
low ≤ close ≤ high, every row of the periodic currency output satisfies
period start ≤ period end and the same band conditions on its aggregated
open, low, high and close. -/
theorem currency_weekly_invariants (iw : Nat → Nat) (f : CFrame) (w : WFrame)
    (hrows : ∀ r ∈ f.rows,
      r.Low ≤ r.Open ∧ r.Open ≤ r.High ∧ r.Low ≤ r.Close ∧ r.Close ≤ r.High)
    (h : CurrencyRate.transform false iw f = .ok (.weekly w)) :
    ∀ wr ∈ w.rows, wr.Start_Week ≤ wr.End_Week ∧ wr.Low ≤ wr.Open ∧ wr.Open ≤ wr.High ∧
      wr.Low ≤ wr.Close ∧ wr.Close ≤ wr.High := by
  have hwr : w.rows = [] ∨ w.rows =
      curWeekly iw (f.rows.map (fun r => { r with Symbol := curRename r.Symbol })) := by
    simp only [CurrencyRate.transform, Bool.false_eq_true, if_false] at h
    split at h
    · cases h
    · split at h
      · cases h
        left
        rfl
      · cases h
        right
        rfl
  rcases hwr with hw | hw
  · rw [hw]
    intro wr hwr2
    cases hwr2
  · rw [hw]
    intro wr hmem
    obtain ⟨k, hk, heq⟩ := curWeekly_mem iw _ wr hmem
    have hgne := group_ne_nil iw _ k hk
    have hg : ∀ r ∈ (f.rows.map (fun r => { r with Symbol := curRename r.Symbol })).filter
        (fun r => curKey iw r == k),
        r.Low ≤ r.Open ∧ r.Open ≤ r.High ∧ r.Low ≤ r.Close ∧ r.Close ≤ r.High := by
      intro r hr
      rw [List.mem_filter] at hr
      obtain ⟨hr1, _⟩ := hr
      rw [List.mem_map] at hr1
      obtain ⟨r0, hr0, hrr⟩ := hr1
      have hb := hrows r0 hr0
      rw [← hrr]
      exact hb
    have hdne : ((f.rows.map (fun r => { r with Symbol := curRename r.Symbol })).filter
        (fun r => curKey iw r == k)).map CRow.Date ≠ [] := by
      simpa [List.map_eq_nil_iff] using hgne
    have hone : ((f.rows.map (fun r => { r with Symbol := curRename r.Symbol })).filter
        (fun r => curKey iw r == k)).map CRow.Open ≠ [] := by
      simpa [List.map_eq_nil_iff] using hgne
    have hcne : ((f.rows.map (fun r => { r with Symbol := curRename r.Symbol })).filter
        (fun r => curKey iw r == k)).map CRow.Close ≠ [] := by
      simpa [List.map_eq_nil_iff] using hgne
    subst heq
    refine ⟨?_, ?_, ?_, ?_, ?_⟩
    · exact le_aggMax _ _ _ (aggMin_mem _ _ hdne)
    · apply le_qMean _ _ hone
      intro x hx
      rw [List.mem_map] at hx
      obtain ⟨r, hr, hxr⟩ := hx
      have h1 : aggMin 0 (((f.rows.map (fun r => { r with Symbol := curRename r.Symbol })).filter
          (fun r => curKey iw r == k)).map CRow.Low) ≤ r.Low :=
        aggMin_le _ _ _ (List.mem_map.mpr ⟨r, hr, rfl⟩)
      rw [← hxr]
      exact le_trans h1 (hg r hr).1
    · apply qMean_le _ _ hone
      intro x hx
      rw [List.mem_map] at hx
      obtain ⟨r, hr, hxr⟩ := hx
      have h1 : r.High ≤ aggMax 0 (((f.rows.map
          (fun r => { r with Symbol := curRename r.Symbol })).filter
          (fun r => curKey iw r == k)).map CRow.High) :=
        le_aggMax _ _ _ (List.mem_map.mpr ⟨r, hr, rfl⟩)
      rw [← hxr]
      exact le_trans (hg r hr).2.1 h1
    · apply le_qMean _ _ hcne
      intro x hx
      rw [List.mem_map] at hx
      obtain ⟨r, hr, hxr⟩ := hx
      have h1 : aggMin 0 (((f.rows.map (fun r => { r with Symbol := curRename r.Symbol })).filter
          (fun r => curKey iw r == k)).map CRow.Low) ≤ r.Low :=
        aggMin_le _ _ _ (List.mem_map.mpr ⟨r, hr, rfl⟩)
      rw [← hxr]
      exact le_trans h1 (hg r hr).2.2.1
    · apply qMean_le _ _ hcne
      intro x hx
      rw [List.mem_map] at hx
      obtain ⟨r, hr, hxr⟩ := hx
      have h1 : r.High ≤ aggMax 0 (((f.rows.map
          (fun r => { r with Symbol := curRename r.Symbol })).filter
          (fun r => curKey iw r == k)).map CRow.High) :=
        le_aggMax _ _ _ (List.mem_map.mpr ⟨r, hr, rfl⟩)
      rw [← hxr]
      exact le_trans (hg r hr).2.2.2 h1

/-- Witness for C7 at the concrete one-row run. -/
theorem currency_weekly_invariants_witness :
    (0 : Nat) ≤ 0 ∧ (9 : ℚ) ≤ 10 ∧ (10 : ℚ) ≤ 12 ∧ (9 : ℚ) ≤ 11 ∧ (11 : ℚ) ≤ 12 :=
  currency_weekly_invariants (fun _ => 1)
    ⟨["Date", "Symbol", "Open", "High", "Low", "Close", "Adj Close", "Volume"],
     [⟨0, "RUB=X", 10, 12, 9, 11⟩]⟩
    ⟨["Symbol", "Start_Week", "End_Week", "Open", "Low", "High", "Close"],
     [⟨"USD/RUB", 0, 0, 10, 9, 12, 11⟩]⟩
    (by
      intro r hr
      rw [List.mem_cons] at hr
      rcases hr with hr | hr
      · subst hr
        refine ⟨by norm_num, by norm_num, by norm_num, by norm_num⟩
      · cases hr)
    (by
      have e1 : CurrencyRate.transform false (fun _ => 1)
          ⟨["Date", "Symbol", "Open", "High", "Low", "Close", "Adj Close", "Volume"],
           [⟨0, "RUB=X", 10, 12, 9, 11⟩]⟩ =
        .ok (.weekly ⟨["Symbol", "Start_Week", "End_Week", "Open", "Low", "High", "Close"],
          [⟨"USD/RUB", 0, 0, qMean [10], 9, 12, qMean [11]⟩]⟩) := rfl
      rw [e1]
      norm_num [qMean])
    ⟨"USD/RUB", 0, 0, 10, 9, 12, 11⟩ (List.mem_singleton.mpr rfl)
